import Mathlib

/-!
Shallow embedding of the ledger engine of `smart.py` (Daily Cash Flow Monitor).

The engine state is the transaction table `df` with columns
S.No / Date / Description / Account / Amount / Balance.  Every mutating
operation (add, modify, delete-selected) and the initial load end with the
same recompute pass (smart.py lines 49-51, 78-80, 92-94, 116-118):

  df = df.sort_values(["Account", "Date"]).reset_index(drop=True)
  df["S.No"]    = df.index + 1
  df["Balance"] = df.groupby("Account")["Amount"].cumsum()

pandas `sort_values` on two columns is `np.lexsort`, a stable sort by
(Account, Date); we embed it with Mathlib's stable `insertionSort` over the
corresponding total preorder (any two stable sorts by the same preorder
agree).  Dates are modelled as naturals (orderables; time of day is never
used), amounts as exact integers.
-/

namespace SmartCash

/-- Kernel-reducible decision procedure for `<` on `String` (the default one
recurses on byte iterators, which the kernel cannot unfold; deciding via the
character list is propositionally the same relation). -/
instance (priority := 1100) decLtStr : DecidableRel (fun a b : String => a < b) :=
  fun _ _ => decidable_of_iff _ String.lt_iff_toList_lt.symm

/-- Kernel-reducible decision procedure for `≤` on `String`. -/
instance (priority := 1100) decLeStr : DecidableRel (fun a b : String => a ≤ b) :=
  fun _ _ => decidable_of_iff _ String.le_iff_toList_le.symm

/-- Embeds Python's `not desc.strip()` truthiness test (smart.py line 67):
`desc.strip()` is empty exactly when every character of `desc` is whitespace. -/
def stripEmpty (s : String) : Bool :=
  s.toList.all fun c => c.isWhitespace

/-- One row of the `cash_flow.csv` dataframe. -/
structure Txn where
  sno : Nat
  date : Nat
  description : String
  account : String
  amount : Int
  balance : Int
deriving DecidableEq, Repr

/-- The sort key used by `df.sort_values(["Account", "Date"])`. -/
def key (t : Txn) : String × Nat := (t.account, t.date)

/-- Lexicographic comparison of sort keys: account name first, date second. -/
def keyR (p q : String × Nat) : Prop :=
  p.1 < q.1 ∨ (p.1 = q.1 ∧ p.2 ≤ q.2)

/-- The total preorder of `sort_values(["Account", "Date"])`: lexicographic on
account name, then date, ignoring all other fields. -/
def canonR (a b : Txn) : Prop :=
  keyR (key a) (key b)

instance : DecidableRel canonR := fun a b => by
  unfold canonR keyR; exact inferInstance

instance : IsTotal Txn canonR :=
  ⟨fun a b => by
    rcases lt_trichotomy a.account b.account with h | h | h
    · exact Or.inl (Or.inl h)
    · rcases Nat.le_total a.date b.date with hd | hd
      · exact Or.inl (Or.inr ⟨h, hd⟩)
      · exact Or.inr (Or.inr ⟨h.symm, hd⟩)
    · exact Or.inr (Or.inl h)⟩

instance : IsTrans Txn canonR :=
  ⟨fun a b c hab hbc => by
    rcases hab with h1 | ⟨e1, d1⟩
    · rcases hbc with h2 | ⟨e2, _⟩
      · exact Or.inl (h1.trans h2)
      · exact Or.inl (e2 ▸ h1)
    · rcases hbc with h2 | ⟨e2, d2⟩
      · exact Or.inl (e1 ▸ h2)
      · exact Or.inr ⟨e1.trans e2, d1.trans d2⟩⟩

/-- `df.sort_values(["Account", "Date"])`: stable sort by account then date. -/
def sortCanon (l : List Txn) : List Txn := List.insertionSort canonR l

/-- `df["S.No"] = df.index + 1`: assign serial numbers `i, i+1, ...` down the
list (called with `i = 1`). -/
def assignSno : Nat → List Txn → List Txn
  | _, [] => []
  | i, t :: ts => { t with sno := i } :: assignSno (i + 1) ts

/-- `df["Balance"] = df.groupby("Account")["Amount"].cumsum()`: rewrite each
row's balance to the running per-account sum of amounts, the accumulator `bal`
holding the sum seen so far for each account (initially zero everywhere). -/
def groupCumsum (bal : String → Int) : List Txn → List Txn
  | [] => []
  | t :: ts =>
    { t with balance := bal t.account + t.amount } ::
      groupCumsum (fun a => if a = t.account then bal t.account + t.amount else bal a) ts

/-- The shared recompute pass of smart.py (lines 49-51 / 78-80 / 92-94 /
116-118): stable sort, renumber, rebuild balances. -/
def recompute (l : List Txn) : List Txn :=
  groupCumsum (fun _ => 0) (assignSno 1 (sortCanon l))

/-- Load-time preparation (smart.py lines 48-53): a non-empty table goes
through the recompute pass, an empty one is left as is. -/
def load (l : List Txn) : List Txn :=
  if l.isEmpty then l else recompute l

inductive LedgerError where
  | validationError
deriving DecidableEq, Repr

instance {ε α : Type} [DecidableEq ε] [DecidableEq α] : DecidableEq (Except ε α) :=
  fun x y =>
    match x, y with
    | .ok a, .ok b =>
      if h : a = b then isTrue (by rw [h]) else isFalse (by intro he; cases he; exact h rfl)
    | .error a, .error b =>
      if h : a = b then isTrue (by rw [h]) else isFalse (by intro he; cases he; exact h rfl)
    | .ok _, .error _ => isFalse (by intro he; cases he)
    | .error _, .ok _ => isFalse (by intro he; cases he)

/-- The Add-Transaction handler (smart.py lines 66-81): reject a description
that strips to empty, otherwise append the new row (with provisional serial
`len(df)+1` and no balance yet) and recompute. -/
def insert (l : List Txn) (date : Nat) (desc acct : String) (amount : Int) :
    Except LedgerError (List Txn) :=
  if stripEmpty desc then .error .validationError
  else .ok (recompute (l ++
    [{ sno := l.length + 1, date := date, description := desc, account := acct,
       amount := amount, balance := 0 }]))

/-- The field assignment of the Update handler (smart.py lines 113-115):
`df.loc[df["S.No"] == mod_sno, ["Date","Description","Account","Amount"]] = ...`. -/
def applyMod (l : List Txn) (sno date : Nat) (desc acct : String) (amount : Int) :
    List Txn :=
  l.map fun t =>
    if t.sno = sno then
      { t with date := date, description := desc, account := acct, amount := amount }
    else t

/-- The Update handler (smart.py lines 111-119): overwrite the matched row's
fields, then recompute.  Note the handler performs no description check. -/
def update (l : List Txn) (sno date : Nat) (desc acct : String) (amount : Int) :
    List Txn :=
  recompute (applyMod l sno date desc acct amount)

inductive DeleteOutcome where
  | deleted
  | nothingSelected
deriving DecidableEq, Repr

/-- The Delete-Selected handler (smart.py lines 89-98): with a non-empty
selection, drop the rows whose S.No is selected (`~df["S.No"].isin(to_delete)`)
and recompute; with an empty selection, warn and leave the table alone. -/
def deleteMany (l : List Txn) (ids : List Nat) : DeleteOutcome × List Txn :=
  if ids.isEmpty then (.nothingSelected, l)
  else (.deleted, recompute (l.filter fun t => !(ids.contains t.sno)))

/-- The pie-chart mask (smart.py lines 145-150): keep the rows whose date lies
in `[dStart, dEnd]` and whose account is among the selected ones. -/
def filterRows (rows : List Txn) (dStart dEnd : Nat) (accts : List String) :
    List Txn :=
  rows.filter fun t =>
    decide (dStart ≤ t.date) && decide (t.date ≤ dEnd) && accts.contains t.account

/-- `total_credit` (smart.py line 152): sum of the strictly positive amounts. -/
def totalCredit (rows : List Txn) : Int :=
  ((rows.filter fun t => decide (0 < t.amount)).map fun t => t.amount).sum

/-- `total_debit` (smart.py line 153): sum of the absolute values of the
strictly negative amounts. -/
def totalDebit (rows : List Txn) : Int :=
  ((rows.filter fun t => decide (t.amount < 0)).map fun t => |t.amount|).sum

/-- The group keys of `df_pie.groupby("Account")`: the distinct accounts of the
rows, in sorted order (pandas groupby sorts its keys). -/
def groupAccounts (rows : List Txn) : List String :=
  List.insertionSort (· ≤ ·) (rows.map fun t => t.account).dedup

/-- `groupby("Account")["Balance"].last()` for one account: the balance of the
account's last row in row order. -/
def lastBal (rows : List Txn) (acct : String) : Int :=
  (((rows.filter fun t => t.account == acct).map fun t => t.balance).getLast?).getD 0

/-- `total_balance` (smart.py lines 154-155): sum of the per-account last
balances, `0` when the filtered table is empty. -/
def totalBalance (rows : List Txn) : Int :=
  if rows.isEmpty then 0 else ((groupAccounts rows).map (lastBal rows)).sum

/-- The `{totalCredit, totalDebit, totalBalance}` aggregate backing the pie
chart (smart.py lines 152-155). -/
def aggregate (rows : List Txn) : Int × Int × Int :=
  (totalCredit rows, totalDebit rows, totalBalance rows)

/-- One row of the Excel export (smart.py lines 174-177). -/
structure ExportRow where
  sno : Nat
  date : Nat
  description : String
  account : String
  amount : Int
  credit : Int
  debit : Int
  balance : Int
deriving DecidableEq, Repr

/-- The per-row export transform (smart.py lines 175-176):
`Credit = x if x > 0 else 0`, `Debit = -x if x < 0 else 0`. -/
def exportRow (t : Txn) : ExportRow :=
  { sno := t.sno, date := t.date, description := t.description,
    account := t.account, amount := t.amount,
    credit := if 0 < t.amount then t.amount else 0,
    debit := if t.amount < 0 then -t.amount else 0,
    balance := t.balance }

/-- The exported table `df_exp` (smart.py lines 174-177). -/
def exportRows (rows : List Txn) : List ExportRow :=
  rows.map exportRow

/-- The user-entered fields of a row (date, description, account, amount):
everything except the derived serial number and balance. -/
def core (t : Txn) : Nat × String × String × Int :=
  (t.date, t.description, t.account, t.amount)

/-- One account's subsequence of the table, in table order. -/
def acctRows (l : List Txn) (acct : String) : List Txn :=
  l.filter fun t => t.account == acct

/-- Rebuilding balances along a single account's subsequence, starting from the
accumulated sum `c`. -/
def balRun (c : Int) : List Txn → List Txn
  | [] => []
  | t :: ts => { t with balance := c + t.amount } :: balRun (c + t.amount) ts

/-- The balance invariant of spec §3: within each account's subsequence, the
k-th balance is the sum of the first k amounts. -/
def balInv (l : List Txn) : Prop :=
  ∀ (acct : String) (k : Nat) (h : k < (acctRows l acct).length),
    ((acctRows l acct).get ⟨k, h⟩).balance
      = (((acctRows l acct).take (k + 1)).map fun t => t.amount).sum

/-- The serial-number invariant of spec §3: read down the table, the ids are
exactly `1..N`. -/
def idsDense (l : List Txn) : Prop :=
  l.map (fun t => t.sno) = List.range' 1 l.length

/-- Wording of the spec for `totalCredit`: the sum of the positive amounts of
the filtered rows. -/
def specTotalCredit (rows : List Txn) : Int :=
  (rows.map fun t => if 0 < t.amount then t.amount else 0).sum

/-- Wording of the spec for `totalDebit`: the sum of the absolute values of the
negative amounts of the filtered rows. -/
def specTotalDebit (rows : List Txn) : Int :=
  (rows.map fun t => if t.amount < 0 then -t.amount else 0).sum

/-- Wording of the spec for an account's contribution to `totalBalance`: "that
account's last balance value appearing in the filtered rows" — the balance of
the account's last row, searched from the end. -/
def specLastBal (rows : List Txn) (acct : String) : Int :=
  ((rows.reverse.find? fun t => t.account == acct).map fun t => t.balance).getD 0

/-- Wording of the spec for `totalBalance`: the sum, over the accounts present
in the filtered rows, of that account's last balance. -/
def specTotalBalance (rows : List Txn) : Int :=
  ((rows.map fun t => t.account).dedup.map (specLastBal rows)).sum

/-- Sample raw rows (as if read from `cash_flow.csv`) used by the witnesses. -/
def demoRaw : List Txn :=
  [⟨1, 20, "Pay", "Cash", -40, 0⟩, ⟨2, 10, "Open", "Cash", 100, 0⟩,
   ⟨3, 10, "Deposit", "Bank", 7, 0⟩]

/-- The sample ledger after its load-time recompute. -/
def demo : List Txn := recompute demoRaw

/-- A sample ledger whose last "Cash" row has amount zero. -/
def zDemo : List Txn :=
  recompute [⟨1, 10, "Adjust", "Cash", 0, 0⟩, ⟨2, 5, "Open", "Cash", 100, 0⟩]

/-! ### Field preservation along the recompute pipeline -/

theorem map_key_assignSno (i : Nat) (l : List Txn) :
    (assignSno i l).map key = l.map key := by
  induction l generalizing i with
  | nil => rfl
  | cons t ts ih => simp [assignSno, key, ih]

theorem map_key_groupCumsum (bal : String → Int) (l : List Txn) :
    (groupCumsum bal l).map key = l.map key := by
  induction l generalizing bal with
  | nil => rfl
  | cons t ts ih => simp [groupCumsum, key, ih]

theorem map_core_assignSno (i : Nat) (l : List Txn) :
    (assignSno i l).map core = l.map core := by
  induction l generalizing i with
  | nil => rfl
  | cons t ts ih => simp [assignSno, core, ih]

theorem map_core_groupCumsum (bal : String → Int) (l : List Txn) :
    (groupCumsum bal l).map core = l.map core := by
  induction l generalizing bal with
  | nil => rfl
  | cons t ts ih => simp [groupCumsum, core, ih]

theorem map_description_assignSno (i : Nat) (l : List Txn) :
    (assignSno i l).map (fun t => t.description) = l.map fun t => t.description := by
  induction l generalizing i with
  | nil => rfl
  | cons t ts ih => simp [assignSno, ih]

theorem map_description_groupCumsum (bal : String → Int) (l : List Txn) :
    (groupCumsum bal l).map (fun t => t.description) = l.map fun t => t.description := by
  induction l generalizing bal with
  | nil => rfl
  | cons t ts ih => simp [groupCumsum, ih]

theorem map_sno_assignSno (i : Nat) (l : List Txn) :
    (assignSno i l).map (fun t => t.sno) = List.range' i l.length := by
  induction l generalizing i with
  | nil => rfl
  | cons t ts ih => simp [assignSno, ih, List.range'_succ]

theorem map_sno_groupCumsum (bal : String → Int) (l : List Txn) :
    (groupCumsum bal l).map (fun t => t.sno) = l.map fun t => t.sno := by
  induction l generalizing bal with
  | nil => rfl
  | cons t ts ih => simp [groupCumsum, ih]

theorem length_assignSno (i : Nat) (l : List Txn) :
    (assignSno i l).length = l.length := by
  induction l generalizing i with
  | nil => rfl
  | cons t ts ih => simp [assignSno, ih]

theorem length_groupCumsum (bal : String → Int) (l : List Txn) :
    (groupCumsum bal l).length = l.length := by
  induction l generalizing bal with
  | nil => rfl
  | cons t ts ih => simp [groupCumsum, ih]

/-! ### The per-account running balance -/

theorem acctRows_groupCumsum (bal : String → Int) (l : List Txn) (acct : String) :
    acctRows (groupCumsum bal l) acct = balRun (bal acct) (acctRows l acct) := by
  induction l generalizing bal with
  | nil => rfl
  | cons t ts ih =>
    have ih' := ih fun a => if a = t.account then bal t.account + t.amount else bal a
    by_cases h : t.account = acct
    · subst h
      simp [acctRows] at ih'
      simp [acctRows, groupCumsum, List.filter_cons, balRun, ih']
    · have hb : acct ≠ t.account := fun e => h e.symm
      simp only [acctRows, if_neg hb] at ih'
      simp [acctRows, groupCumsum, List.filter_cons, h, ih']

theorem map_amount_balRun (c : Int) (l : List Txn) :
    (balRun c l).map (fun t => t.amount) = l.map fun t => t.amount := by
  induction l generalizing c with
  | nil => rfl
  | cons t ts ih => simp [balRun, ih]

theorem length_balRun (c : Int) (l : List Txn) :
    (balRun c l).length = l.length := by
  induction l generalizing c with
  | nil => rfl
  | cons t ts ih => simp [balRun, ih]

theorem balance_balRun (c : Int) (l : List Txn) (k : Nat) (h : k < (balRun c l).length) :
    ((balRun c l).get ⟨k, h⟩).balance
      = c + (((l.take (k + 1)).map fun t => t.amount).sum) := by
  induction l generalizing c k with
  | nil => simp [balRun] at h
  | cons t ts ih =>
    cases k with
    | zero => simp [balRun]
    | succ k =>
      have h' : k < (balRun (c + t.amount) ts).length := by
        simpa [balRun] using h
      have := ih (c + t.amount) k h'
      simp only [balRun, List.get_cons_succ, this, List.take, List.map_cons, List.sum_cons]
      ring

theorem balInv_nil : balInv [] := by
  intro acct k h
  simp [acctRows] at h

theorem balInv_groupCumsum (l : List Txn) : balInv (groupCumsum (fun _ => 0) l) := by
  intro acct k
  rw [acctRows_groupCumsum]
  intro h
  rw [balance_balRun, List.map_take, List.map_take, map_amount_balRun]
  simp

theorem balInv_recompute (l : List Txn) : balInv (recompute l) :=
  balInv_groupCumsum _

/-! ### Dense serial numbers -/

theorem idsDense_recompute (l : List Txn) : idsDense (recompute l) := by
  unfold idsDense recompute
  rw [map_sno_groupCumsum, map_sno_assignSno, length_groupCumsum, length_assignSno]

/-! ### Sortedness and idempotence of the recompute pass -/

theorem sorted_key_iff (l : List Txn) :
    List.Sorted canonR l ↔ List.Pairwise keyR (l.map key) := by
  rw [List.pairwise_map]
  exact Iff.rfl

theorem sorted_recompute (l : List Txn) : List.Sorted canonR (recompute l) := by
  have h : List.Sorted canonR (sortCanon l) := List.sorted_insertionSort canonR l
  rw [sorted_key_iff] at h ⊢
  show List.Pairwise keyR ((groupCumsum (fun _ => 0) (assignSno 1 (sortCanon l))).map key)
  rw [map_key_groupCumsum, map_key_assignSno]
  exact h

theorem sortCanon_recompute (l : List Txn) : sortCanon (recompute l) = recompute l :=
  List.Sorted.insertionSort_eq (sorted_recompute l)

theorem assignSno_assignSno (i j : Nat) (l : List Txn) :
    assignSno i (assignSno j l) = assignSno i l := by
  induction l generalizing i j with
  | nil => rfl
  | cons t ts ih => simp [assignSno, ih]

theorem groupCumsum_assignSno (bal : String → Int) (i : Nat) (l : List Txn) :
    groupCumsum bal (assignSno i l) = assignSno i (groupCumsum bal l) := by
  induction l generalizing bal i with
  | nil => rfl
  | cons t ts ih => simp [assignSno, groupCumsum, ih]

theorem groupCumsum_groupCumsum (bal bal2 : String → Int) (l : List Txn) :
    groupCumsum bal (groupCumsum bal2 l) = groupCumsum bal l := by
  induction l generalizing bal bal2 with
  | nil => rfl
  | cons t ts ih => simp [groupCumsum, ih]

theorem recompute_recompute (l : List Txn) : recompute (recompute l) = recompute l := by
  show groupCumsum (fun _ => 0) (assignSno 1 (sortCanon (recompute l))) = recompute l
  rw [sortCanon_recompute]
  show groupCumsum (fun _ => 0)
      (assignSno 1 (groupCumsum (fun _ => 0) (assignSno 1 (sortCanon l)))) = _
  rw [← groupCumsum_assignSno, assignSno_assignSno, groupCumsum_groupCumsum]
  rfl

/-! ### Report-engine helper lemmas -/

theorem find_eq_head_filter {α : Type} (p : α → Bool) (l : List α) :
    l.find? p = (l.filter p).head? := by
  induction l with
  | nil => rfl
  | cons a l ih =>
    by_cases h : p a = true
    · simp [List.find?_cons_of_pos _ h, List.filter_cons, h]
    · have h' : p a = false := by simpa using h
      rw [List.find?_cons_of_neg _ h, List.filter_cons, h']
      simp only [Bool.false_eq_true, ite_false]
      exact ih

theorem lastBal_eq_specLastBal (rows : List Txn) (acct : String) :
    lastBal rows acct = specLastBal rows acct := by
  unfold lastBal specLastBal
  rw [find_eq_head_filter, List.filter_reverse, List.head?_reverse, List.getLast?_map]

theorem totalCredit_eq_spec (rows : List Txn) : totalCredit rows = specTotalCredit rows := by
  induction rows with
  | nil => rfl
  | cons t ts ih =>
    unfold totalCredit specTotalCredit at *
    by_cases h : (0 : Int) < t.amount <;> simp [List.filter_cons, h, ih]

theorem totalDebit_eq_spec (rows : List Txn) : totalDebit rows = specTotalDebit rows := by
  induction rows with
  | nil => rfl
  | cons t ts ih =>
    unfold totalDebit specTotalDebit at *
    by_cases h : t.amount < 0 <;> simp [List.filter_cons, h, ih, abs_of_neg]

theorem totalBalance_eq_spec (rows : List Txn) : totalBalance rows = specTotalBalance rows := by
  unfold totalBalance specTotalBalance
  by_cases he : rows.isEmpty = true
  · have hnil : rows = [] := List.isEmpty_iff.mp he
    subst hnil
    simp
  · simp only [he, Bool.false_eq_true, ite_false]
    have hfun : lastBal rows = specLastBal rows :=
      funext fun acct => lastBal_eq_specLastBal rows acct
    have hperm := List.perm_insertionSort (fun a b : String => a ≤ b)
      ((rows.map fun t => t.account).dedup)
    rw [show groupAccounts rows
        = List.insertionSort (fun a b : String => a ≤ b) ((rows.map fun t => t.account).dedup)
        from rfl]
    rw [(hperm.map (lastBal rows)).sum_eq, hfun]

/-! ### Claim theorems -/

/-- C1: after every mutating operation (insert, update, deleteMany) and after
load, for every account and every position k in that account's subsequence of
the canonical order, the stored balance of the k-th transaction equals the sum
of the amounts of the account's first k transactions in canonical order. -/
theorem ledger_balance_invariant (l : List Txn) (d sno : Nat) (desc acct : String)
    (amt : Int) (ids : List Nat) :
    (∀ l', insert l d desc acct amt = Except.ok l' → balInv l')
    ∧ balInv (update l sno d desc acct amt)
    ∧ (balInv l → balInv (deleteMany l ids).2)
    ∧ balInv (load l) := by
  refine ⟨?_, balInv_recompute _, ?_, ?_⟩
  · intro l' h
    unfold insert at h
    by_cases hv : stripEmpty desc = true
    · simp [hv] at h
    · simp only [hv, if_false, Bool.false_eq_true, ite_false, Except.ok.injEq] at h
      exact h ▸ balInv_recompute _
  · intro hl
    by_cases hid : ids.isEmpty = true
    · simpa [deleteMany, hid] using hl
    · simp only [deleteMany, hid, Bool.false_eq_true, ite_false]
      exact balInv_recompute _
  · by_cases he : l.isEmpty = true
    · have hnil : l = [] := List.isEmpty_iff.mp he
      subst hnil
      simpa [load] using balInv_nil
    · simpa [load, he] using balInv_recompute l

/-- Witness for `ledger_balance_invariant`: the balance invariant at concrete
inserts, updates, deletions and load on the sample ledger. -/
theorem ledger_balance_invariant_witness :
    balInv (recompute (demoRaw ++ [⟨4, 15, "Fee", "Cash", -3, 0⟩]))
    ∧ balInv (update demoRaw 2 15 "Edit" "Bank" 8)
    ∧ balInv (deleteMany demo [1]).2
    ∧ balInv (load demoRaw) :=
  ⟨(ledger_balance_invariant demoRaw 15 2 "Fee" "Cash" (-3) [1]).1 _ (by decide),
   (ledger_balance_invariant demoRaw 15 2 "Edit" "Bank" 8 [1]).2.1,
   (ledger_balance_invariant demo 15 2 "Edit" "Bank" 8 [1]).2.2.1 (balInv_recompute demoRaw),
   (ledger_balance_invariant demoRaw 15 2 "Edit" "Bank" 8 [1]).2.2.2⟩

/-- C2: after every mutating operation (insert, update, deleteMany) the serial
numbers of the ledger, read in canonical order, are exactly `1..N` with no gaps
and no duplicates. -/
theorem ledger_ids_dense (l : List Txn) (d sno : Nat) (desc acct : String)
    (amt : Int) (ids : List Nat) :
    (∀ l', insert l d desc acct amt = Except.ok l' → idsDense l')
    ∧ idsDense (update l sno d desc acct amt)
    ∧ (idsDense l → idsDense (deleteMany l ids).2) := by
  refine ⟨?_, idsDense_recompute _, ?_⟩
  · intro l' h
    unfold insert at h
    by_cases hv : stripEmpty desc = true
    · simp [hv] at h
    · simp only [hv, if_false, Bool.false_eq_true, ite_false, Except.ok.injEq] at h
      exact h ▸ idsDense_recompute _
  · intro hl
    by_cases hid : ids.isEmpty = true
    · simpa [deleteMany, hid] using hl
    · simp only [deleteMany, hid, Bool.false_eq_true, ite_false]
      exact idsDense_recompute _

/-- Witness for `ledger_ids_dense`: dense ids at a concrete insert, update and
deletion on the sample ledger. -/
theorem ledger_ids_dense_witness :
    idsDense (recompute (demoRaw ++ [⟨4, 15, "Fee", "Cash", -3, 0⟩]))
    ∧ idsDense (update demoRaw 2 15 "Edit" "Bank" 8)
    ∧ idsDense (deleteMany demo [2]).2 :=
  ⟨(ledger_ids_dense demoRaw 15 2 "Fee" "Cash" (-3) [2]).1 _ (by decide),
   (ledger_ids_dense demoRaw 15 2 "Edit" "Bank" 8 [2]).2.1,
   (ledger_ids_dense demo 15 2 "Edit" "Bank" 8 [2]).2.2 (idsDense_recompute demoRaw)⟩

/-- C7: the canonical sort is stable — two transactions with the same account
and the same date keep their relative order (of user-entered fields) through
the recompute pass that every mutating operation and load perform. -/
theorem recompute_stable_same_key (l : List Txn) (t1 t2 : Txn)
    (ha : t1.account = t2.account) (hd : t1.date = t2.date)
    (hsub : [t1, t2].Sublist l) :
    ([t1, t2].map core).Sublist ((recompute l).map core) := by
  have hr : canonR t1 t2 := Or.inr ⟨ha, le_of_eq hd⟩
  have h1 : [t1, t2].Sublist (sortCanon l) := List.pair_sublist_insertionSort hr hsub
  have he : (recompute l).map core = (sortCanon l).map core := by
    show (groupCumsum (fun _ => 0) (assignSno 1 (sortCanon l))).map core = _
    rw [map_core_groupCumsum, map_core_assignSno]
  rw [he]
  exact h1.map core

/-- Witness for `recompute_stable_same_key`: two same-account same-date rows of
a concrete ledger stay in insertion order after recompute. -/
theorem recompute_stable_same_key_witness :
    ([⟨1, 10, "First", "Cash", 5, 0⟩, ⟨2, 10, "Second", "Cash", 7, 0⟩].map core).Sublist
      ((recompute [⟨1, 10, "First", "Cash", 5, 0⟩,
        ⟨2, 10, "Second", "Cash", 7, 0⟩]).map core) :=
  recompute_stable_same_key _ _ _ rfl rfl (List.Sublist.refl _)

/-- C8: the recompute pass is idempotent — running it twice with no mutation in
between yields the same snapshot as running it once. -/
theorem recompute_idempotent (l : List Txn) : recompute (recompute l) = recompute l :=
  recompute_recompute l

/-- C9: deleteMany removes exactly the rows whose current serial is in the
selection, silently ignores unknown serials, and with an empty selection leaves
the ledger unchanged while signalling "nothing selected" rather than erring. -/
theorem deleteMany_semantics (l : List Txn) (ids : List Nat) :
    (ids = [] → deleteMany l ids = (DeleteOutcome.nothingSelected, l))
    ∧ (ids ≠ [] →
        (deleteMany l ids).1 = DeleteOutcome.deleted
        ∧ (deleteMany l ids).2 = recompute (l.filter fun t => !(ids.contains t.sno)))
    ∧ (∀ t, t ∈ l.filter (fun t => !(ids.contains t.sno)) ↔ t ∈ l ∧ t.sno ∉ ids)
    ∧ l.filter (fun t => !(ids.contains t.sno))
        = l.filter fun t => !((ids.filter fun i => l.any fun s => s.sno == i).contains t.sno) := by
  refine ⟨?_, ?_, ?_, ?_⟩
  · intro h
    subst h
    rfl
  · intro h
    have hne : ¬(ids.isEmpty = true) := fun he => h (List.isEmpty_iff.mp he)
    constructor <;> simp [deleteMany, hne]
  · intro t
    simp [List.mem_filter]
  · refine List.filter_congr fun t ht => ?_
    have hq : (l.any fun s => s.sno == t.sno) = true := by
      simp only [List.any_eq_true, beq_iff_eq]
      exact ⟨t, ht, rfl⟩
    have hmem : t.sno ∈ ids.filter (fun i => l.any fun s => s.sno == i) ↔ t.sno ∈ ids := by
      simp [List.mem_filter, hq]
    simp [hmem]

/-- Witness for `deleteMany_semantics`: the empty selection is a signalled
no-op, a non-empty selection (with an unknown id) reports a deletion. -/
theorem deleteMany_semantics_witness :
    deleteMany demo [] = (DeleteOutcome.nothingSelected, demo)
    ∧ (deleteMany demo [1, 99]).1 = DeleteOutcome.deleted :=
  ⟨(deleteMany_semantics demo []).1 rfl,
   ((deleteMany_semantics demo [1, 99]).2.1 (by decide)).1⟩

/-- C3 counterexample: the update handler does NOT validate the description.
With an empty description (which `insert` would reject, `stripEmpty "" = true`)
the update is applied: the ledger changes and now holds a row whose description
is empty — refuting "fails with ValidationError, leaving the ledger
unchanged". -/
theorem update_empty_description_cex :
    stripEmpty "" = true
    ∧ update [⟨1, 10, "Open", "Cash", 100, 100⟩] 1 10 "" "Cash" 100
        ≠ [⟨1, 10, "Open", "Cash", 100, 100⟩]
    ∧ (⟨1, 10, "", "Cash", 100, 100⟩ : Txn)
        ∈ update [⟨1, 10, "Open", "Cash", 100, 100⟩] 1 10 "" "Cash" 100 := by
  decide

/-- C3 (amended): update performs no description validation — when the target
serial exists, an update whose description trims to empty is applied and the
updated row, with its empty description, appears in the resulting snapshot. -/
theorem update_applies_empty_description (l : List Txn) (sno d : Nat) (acct : String)
    (amt : Int) (h : ∃ t ∈ l, t.sno = sno) :
    ∃ t ∈ update l sno d "" acct amt, t.description = "" := by
  obtain ⟨t, ht, hs⟩ := h
  have hm : "" ∈ (applyMod l sno d "" acct amt).map fun t => t.description := by
    refine List.mem_map.mpr
      ⟨{ t with date := d, description := "", account := acct, amount := amt }, ?_, rfl⟩
    unfold applyMod
    refine List.mem_map.mpr ⟨t, ht, ?_⟩
    rw [if_pos hs]
  have hu : "" ∈ (update l sno d "" acct amt).map fun t => t.description := by
    show "" ∈ (groupCumsum (fun _ => 0)
      (assignSno 1 (sortCanon (applyMod l sno d "" acct amt)))).map fun t => t.description
    rw [map_description_groupCumsum, map_description_assignSno]
    obtain ⟨t', ht', he⟩ := List.mem_map.mp hm
    exact List.mem_map.mpr ⟨t', (List.mem_insertionSort canonR).mpr ht', he⟩
  obtain ⟨t', ht', he⟩ := List.mem_map.mp hu
  exact ⟨t', ht', he⟩

/-- Witness for `update_applies_empty_description`: updating the only row of a
concrete ledger with an empty description puts an empty-description row in the
snapshot. -/
theorem update_applies_empty_description_witness :
    ∃ t ∈ update [⟨1, 10, "Open", "Cash", 100, 100⟩] 1 12 "" "Cash" 50,
      t.description = "" :=
  update_applies_empty_description _ 1 12 "Cash" 50
    ⟨⟨1, 10, "Open", "Cash", 100, 100⟩, by decide, rfl⟩

/-- C5: the pie-chart aggregate matches the spec — totalCredit is the sum of
the positive amounts, totalDebit the sum of the absolute values of the
negative amounts, and totalBalance the sum over the accounts present in the
filtered rows of that account's last balance value in canonical order. -/
theorem aggregate_matches_spec (rows : List Txn) :
    aggregate rows = (specTotalCredit rows, specTotalDebit rows, specTotalBalance rows) := by
  unfold aggregate
  rw [totalCredit_eq_spec, totalDebit_eq_spec, totalBalance_eq_spec]

/-- C6: the date/account mask keeps exactly the subsequence of rows whose date
lies in `[dStart, dEnd]` and whose account is selected; an inverted range or an
empty account selection yields the empty result, not an error. -/
theorem report_filter_semantics (rows : List Txn) (dS dE : Nat) (accts : List String) :
    filterRows rows dS dE accts
        = rows.filter (fun t => decide (dS ≤ t.date ∧ t.date ≤ dE ∧ t.account ∈ accts))
    ∧ (filterRows rows dS dE accts).Sublist rows
    ∧ (∀ t, t ∈ filterRows rows dS dE accts ↔
        t ∈ rows ∧ dS ≤ t.date ∧ t.date ≤ dE ∧ t.account ∈ accts)
    ∧ (dE < dS → filterRows rows dS dE accts = [])
    ∧ (accts = [] → filterRows rows dS dE accts = []) := by
  refine ⟨?_, List.filter_sublist rows, ?_, ?_, ?_⟩
  · unfold filterRows
    refine List.filter_congr fun t ht => ?_
    by_cases h1 : dS ≤ t.date <;> by_cases h2 : t.date ≤ dE <;>
      by_cases h3 : t.account ∈ accts <;> simp [h1, h2, h3]
  · intro t
    unfold filterRows
    simp [List.mem_filter, and_assoc]
  · intro h
    unfold filterRows
    refine List.filter_eq_nil_iff.mpr fun t ht => ?_
    simp only [Bool.and_eq_true, decide_eq_true_eq]
    rintro ⟨⟨ha, hb⟩, -⟩
    omega
  · intro h
    subst h
    unfold filterRows
    refine List.filter_eq_nil_iff.mpr fun t ht => ?_
    simp

/-- Witness for `report_filter_semantics`: on the sample ledger an inverted
date range and an empty account selection both give the empty result. -/
theorem report_filter_semantics_witness :
    filterRows demo 6 3 ["Cash"] = [] ∧ filterRows demo 1 100 [] = [] :=
  ⟨(report_filter_semantics demo 6 3 ["Cash"]).2.2.2.1 (by decide),
   (report_filter_semantics demo 1 100 []).2.2.2.2 rfl⟩

/-- C10: a zero-amount transaction contributes to neither totalCredit nor
totalDebit (both comparisons are strict), is exported with credit = 0 and
debit = 0, and still participates in filtering and in the per-account last
balance used for totalBalance. -/
theorem zero_amount_rows (rows : List Txn) :
    totalCredit rows = totalCredit (rows.filter fun t => !(t.amount == 0))
    ∧ totalDebit rows = totalDebit (rows.filter fun t => !(t.amount == 0))
    ∧ (∀ t ∈ rows, t.amount = 0 →
        exportRow t ∈ exportRows rows
        ∧ (exportRow t).credit = 0 ∧ (exportRow t).debit = 0)
    ∧ (∀ t ∈ rows, t.amount = 0 → ∀ dS dE accts,
        (t ∈ filterRows rows dS dE accts ↔
          dS ≤ t.date ∧ t.date ≤ dE ∧ t.account ∈ accts))
    ∧ (∀ t : Txn, t.amount = 0 → (acctRows rows t.account).getLast? = some t →
        lastBal rows t.account = t.balance) := by
  refine ⟨?_, ?_, ?_, ?_, ?_⟩
  · unfold totalCredit
    rw [List.filter_filter]
    have heq : rows.filter (fun t => decide (0 < t.amount))
        = rows.filter fun t => decide (0 < t.amount) && !(t.amount == 0) :=
      List.filter_congr fun t ht => by
        by_cases h : (0 : Int) < t.amount
        · simp [h, ne_of_gt h]
        · simp [h]
    rw [heq]
  · unfold totalDebit
    rw [List.filter_filter]
    have heq : rows.filter (fun t => decide (t.amount < 0))
        = rows.filter fun t => decide (t.amount < 0) && !(t.amount == 0) :=
      List.filter_congr fun t ht => by
        by_cases h : t.amount < 0
        · simp [h, ne_of_lt h]
        · simp [h]
    rw [heq]
  · intro t ht h0
    refine ⟨List.mem_map_of_mem exportRow ht, ?_, ?_⟩ <;> simp [exportRow, h0]
  · intro t ht h0 dS dE accts
    unfold filterRows
    simp [List.mem_filter, ht, and_assoc]
  · intro t h0 hlast
    unfold acctRows at hlast
    unfold lastBal
    rw [List.getLast?_map, hlast]
    rfl

/-- Witness for `zero_amount_rows`: the sample ledger whose last "Cash" row has
amount zero — the zero row is excluded from credit, exported as 0/0, kept by
the filter, and its balance is the account's last balance. -/
theorem zero_amount_rows_witness :
    totalCredit zDemo = totalCredit (zDemo.filter fun t => !(t.amount == 0))
    ∧ exportRow ⟨2, 10, "Adjust", "Cash", 0, 100⟩ ∈ exportRows zDemo
    ∧ (exportRow ⟨2, 10, "Adjust", "Cash", 0, 100⟩).credit = 0
    ∧ (⟨2, 10, "Adjust", "Cash", 0, 100⟩ : Txn) ∈ filterRows zDemo 0 20 ["Cash"]
    ∧ lastBal zDemo "Cash" = 100 :=
  ⟨(zero_amount_rows zDemo).1,
   ((zero_amount_rows zDemo).2.2.1 _ (by decide) rfl).1,
   ((zero_amount_rows zDemo).2.2.1 _ (by decide) rfl).2.1,
   ((zero_amount_rows zDemo).2.2.2.1 _ (by decide) rfl 0 20 ["Cash"]).mpr (by decide),
   (zero_amount_rows zDemo).2.2.2.2 ⟨2, 10, "Adjust", "Cash", 0, 100⟩ rfl (by decide)⟩

end SmartCash
